import Mathlib

/-!
Shallow embedding of `units.py` (harfel/units): the `Quantity` class with
its dimension dictionary, arithmetic, comparisons, conversions and the
in-place `simplify`.

Modelling choices:
* Magnitudes and dimension exponents are exact rationals (`ℚ`).  The host
  numeric types of Python (int, float, Fraction) are represented by `ℚ`;
  `float(...)` inside `simplify` is the identity on this model, and
  host-level `ZeroDivisionError` is out of scope (division on `ℚ` is the
  total field division).
* A Python dict from dimension label to exponent is an association list
  with no duplicate keys (`Dims`).  Dict equality is extensional (same
  keys, equal values, order-independent), exactly like Python `==` on
  dicts.  A zero-exponent entry is distinct from an absent entry, as in
  Python.
* Exceptions are an inductive `Err` tagged by raise site.
* `Quantity.__pow__` applies the magnitude's own `**`; the embedding takes
  that host power operation as an explicit function parameter.
* The string-magnitude (`Empirical`) branch of `__init__`, `__repr__`,
  `__str__`, `as_latex` and the unit-constant table are out of scope here.
* For the frame property of the arithmetic operators there is additionally
  an explicit-heap version of the operators (`runAOp`), in which each
  Python `Quantity` object is a mutable cell in a store and `simplify`
  mutates its cell in place, as in the source.
-/

namespace Units

/-- Python exceptions raised by `units.py`, tagged by raise site. -/
inductive Err where
  /-- TypeError "No ordering relation is defined for units of different dimension". -/
  | noOrdering
  /-- TypeError "Cannot add X and Y.". -/
  | cannotAdd
  /-- TypeError "Cannot subtract X and Y.". -/
  | cannotSubtract
  /-- TypeError "Cannot convert dimensional quantity into int/long/float/complex.". -/
  | cannotConvert
  /-- NotImplementedError (equality or ordering against a bare number on a dimensioned Quantity). -/
  | notImplemented
  /-- RuntimeError raised by the modulo and divmod operators. -/
  | unsupportedXXX
  deriving DecidableEq

/-- Python dict lookup `d.get(k)` on an association list: first matching key. -/
def lookupE : List (String × ℚ) → String → Option ℚ
  | [], _ => none
  | (a, v) :: rest, k => if a = k then some v else lookupE rest k

/-- Python dict assignment `d[k] = v`: replace the entry in place, or append. -/
def setE : List (String × ℚ) → String → ℚ → List (String × ℚ)
  | [], k, v => [(k, v)]
  | (a, b) :: rest, k, v => if a = k then (k, v) :: rest else (a, b) :: setE rest k v

/-- The keys of the dict. -/
def keysE (l : List (String × ℚ)) : List String := l.map Prod.fst

/-- The loop `for u in other.unit: unit[u] = unit.get(u,0) <op> other.unit[u]`
shared by `__mul__` (exponents added) and `__div__`/`__floordiv__`
(exponents subtracted); `f` is the operator. -/
def combE (f : ℚ → ℚ → ℚ) (a b : List (String × ℚ)) : List (String × ℚ) :=
  b.foldl (fun u p => setE u p.1 (f ((lookupE u p.1).getD 0) p.2)) a

/-- `not any(unit.values())`: every exponent equals 0 (true for the empty dict). -/
def allZeroE (l : List (String × ℚ)) : Bool :=
  l.all fun p => decide (p.2 = 0)

/-- `zeros = [u for u in unit if unit[u]==0]; for u in zeros: del unit[u]`:
keep exactly the entries with nonzero exponent. -/
def stripE (l : List (String × ℚ)) : List (String × ℚ) :=
  l.filter fun p => decide (p.2 ≠ 0)

/-- Python dict equality: the same keys with equal values, order-independent. -/
def dimsEqE (a b : List (String × ℚ)) : Bool :=
  (a.all fun p => decide (lookupE b p.1 = some p.2)) &&
  (b.all fun p => decide (lookupE a p.1 = some p.2))

/-- No key occurs twice, the invariant of a Python dict. -/
def NodupKeysE (l : List (String × ℚ)) : Prop := (keysE l).Nodup

instance (l : List (String × ℚ)) : Decidable (NodupKeysE l) := by
  unfold NodupKeysE
  exact List.nodupDecidable _

/-- A Python dict from dimension label to rational exponent. -/
structure Dims where
  entries : List (String × ℚ)
  nodup : NodupKeysE entries

theorem keysE_nil : keysE [] = [] := rfl

theorem keysE_cons (p : String × ℚ) (rest : List (String × ℚ)) :
    keysE (p :: rest) = p.1 :: keysE rest := rfl

theorem lookupE_some_mem_keysE (l : List (String × ℚ)) (k : String) (v : ℚ)
    (h : lookupE l k = some v) : k ∈ keysE l := by
  induction l with
  | nil => simp [lookupE] at h
  | cons p rest ih =>
    obtain ⟨a, b⟩ := p
    by_cases ha : a = k
    · simp [keysE_cons, ha]
    · simp only [lookupE, ha, if_false] at h
      simp only [keysE_cons, List.mem_cons]
      exact Or.inr (ih h)

theorem lookupE_some_mem (l : List (String × ℚ)) (k : String) (v : ℚ)
    (h : lookupE l k = some v) : (k, v) ∈ l := by
  induction l with
  | nil => simp [lookupE] at h
  | cons p rest ih =>
    obtain ⟨a, b⟩ := p
    by_cases ha : a = k
    · subst ha
      simp only [lookupE, if_pos rfl] at h
      obtain rfl : b = v := Option.some.inj h
      exact List.mem_cons_self _ _
    · simp only [lookupE, ha, if_false] at h
      exact List.mem_cons_of_mem _ (ih h)

theorem mem_lookupE_of_nodup (l : List (String × ℚ)) (k : String) (v : ℚ)
    (hn : NodupKeysE l) (h : (k, v) ∈ l) : lookupE l k = some v := by
  induction l with
  | nil => simp at h
  | cons p rest ih =>
    obtain ⟨a, b⟩ := p
    simp only [NodupKeysE, keysE_cons, List.nodup_cons] at hn
    rcases List.mem_cons.1 h with h1 | h2
    · injection h1 with e1 e2
      subst e1
      subst e2
      simp [lookupE]
    · by_cases ha : a = k
      · exfalso
        apply hn.1
        rw [ha]
        exact List.mem_map.2 ⟨(k, v), h2, rfl⟩
      · simp only [lookupE, ha, if_false]
        exact ih hn.2 h2

theorem lookupE_setE (l : List (String × ℚ)) (k k' : String) (v : ℚ) :
    lookupE (setE l k v) k' = if k = k' then some v else lookupE l k' := by
  induction l with
  | nil => simp [setE, lookupE]
  | cons p rest ih =>
    obtain ⟨a, b⟩ := p
    by_cases ha : a = k
    · subst ha
      simp only [setE, if_pos rfl]
      by_cases h : a = k' <;> simp [lookupE, h]
    · simp only [setE, if_neg ha]
      by_cases h : a = k'
      · subst h
        have hka : ¬ k = a := fun hc => ha hc.symm
        simp [lookupE, hka]
      · simp [lookupE, h, ih]

theorem mem_keysE_setE (l : List (String × ℚ)) (k k' : String) (v : ℚ) :
    k' ∈ keysE (setE l k v) ↔ k' ∈ keysE l ∨ k' = k := by
  induction l with
  | nil => simp [setE, keysE]
  | cons p rest ih =>
    obtain ⟨a, b⟩ := p
    by_cases ha : a = k
    · subst ha
      rw [show setE ((a, b) :: rest) a v = (a, v) :: rest from by simp [setE]]
      simp only [keysE_cons, List.mem_cons]
      tauto
    · rw [show setE ((a, b) :: rest) k v = (a, b) :: setE rest k v from by simp [setE, ha]]
      simp only [keysE_cons, List.mem_cons, ih]
      tauto

theorem nodupKeysE_setE (l : List (String × ℚ)) (k : String) (v : ℚ)
    (h : NodupKeysE l) : NodupKeysE (setE l k v) := by
  induction l with
  | nil => simp [setE, NodupKeysE, keysE]
  | cons p rest ih =>
    obtain ⟨a, b⟩ := p
    simp only [NodupKeysE, keysE_cons, List.nodup_cons] at h
    by_cases ha : a = k
    · subst ha
      rw [show setE ((a, b) :: rest) a v = (a, v) :: rest from by simp [setE]]
      simp only [NodupKeysE, keysE_cons, List.nodup_cons]
      exact h
    · rw [show setE ((a, b) :: rest) k v = (a, b) :: setE rest k v from by simp [setE, ha]]
      simp only [NodupKeysE, keysE_cons, List.nodup_cons]
      refine ⟨?_, ih h.2⟩
      intro hc
      rcases (mem_keysE_setE rest k a v).1 hc with h1 | h2
      · exact h.1 h1
      · exact ha h2

theorem nodupKeysE_combE (f : ℚ → ℚ → ℚ) (a b : List (String × ℚ))
    (h : NodupKeysE a) : NodupKeysE (combE f a b) := by
  induction b generalizing a with
  | nil => exact h
  | cons p rest ih =>
    exact ih _ (nodupKeysE_setE _ _ _ h)

theorem lookupE_combE (f : ℚ → ℚ → ℚ) (a b : List (String × ℚ))
    (hb : NodupKeysE b) (k : String) :
    lookupE (combE f a b) k =
      match lookupE b k with
      | some w => some (f ((lookupE a k).getD 0) w)
      | none => lookupE a k := by
  induction b generalizing a with
  | nil => simp [combE, lookupE]
  | cons p rest ih =>
    obtain ⟨a0, v0⟩ := p
    simp only [NodupKeysE, keysE_cons, List.nodup_cons] at hb
    have step : combE f a ((a0, v0) :: rest)
        = combE f (setE a a0 (f ((lookupE a a0).getD 0) v0)) rest := rfl
    rw [step, ih _ hb.2]
    cases hres : lookupE rest k with
    | some w =>
      have hkmem : k ∈ keysE rest := lookupE_some_mem_keysE _ _ _ hres
      have hk : a0 ≠ k := fun hc => hb.1 (hc ▸ hkmem)
      simp [lookupE, hk, hres, lookupE_setE]
    | none =>
      by_cases hk : a0 = k
      · subst hk
        simp [lookupE, hres, lookupE_setE]
      · simp [lookupE, hk, hres, lookupE_setE]

theorem allZeroE_iff_lookups (l : List (String × ℚ)) (hn : NodupKeysE l) :
    allZeroE l = true ↔ ∀ k v, lookupE l k = some v → v = 0 := by
  constructor
  · intro h k v hl
    have hm := lookupE_some_mem _ _ _ hl
    simp only [allZeroE, List.all_eq_true, decide_eq_true_eq] at h
    exact h _ hm
  · intro h
    simp only [allZeroE, List.all_eq_true, decide_eq_true_eq]
    intro p hp
    exact h p.1 p.2 (mem_lookupE_of_nodup _ _ _ hn hp)

theorem dimsEqE_lookup (a b : List (String × ℚ)) (h : dimsEqE a b = true)
    (k : String) : lookupE a k = lookupE b k := by
  simp only [dimsEqE, Bool.and_eq_true, List.all_eq_true, decide_eq_true_eq] at h
  cases ha : lookupE a k with
  | some v =>
    exact (h.1 _ (lookupE_some_mem _ _ _ ha)).symm
  | none =>
    cases hbk : lookupE b k with
    | some w =>
      have h2 := h.2 _ (lookupE_some_mem _ _ _ hbk)
      rw [ha] at h2
      exact Option.noConfusion h2
    | none => rfl

theorem dimsEqE_refl (a : List (String × ℚ)) (h : NodupKeysE a) :
    dimsEqE a a = true := by
  simp only [dimsEqE, Bool.and_eq_true, List.all_eq_true, decide_eq_true_eq]
  exact ⟨fun p hp => mem_lookupE_of_nodup _ _ _ h hp,
    fun p hp => mem_lookupE_of_nodup _ _ _ h hp⟩

theorem nodupKeysE_stripE (l : List (String × ℚ)) (h : NodupKeysE l) :
    NodupKeysE (stripE l) := by
  unfold NodupKeysE keysE stripE
  exact List.Nodup.sublist ((List.filter_sublist l).map Prod.fst) h

theorem keysE_map_snd (g : String × ℚ → ℚ) (l : List (String × ℚ)) :
    keysE (l.map fun p => (p.1, g p)) = keysE l := by
  unfold keysE
  rw [List.map_map]
  rfl

theorem nodupKeysE_map_snd (g : String × ℚ → ℚ) (l : List (String × ℚ))
    (h : NodupKeysE l) : NodupKeysE (l.map fun p => (p.1, g p)) := by
  unfold NodupKeysE
  rw [show keysE (l.map fun p => (p.1, g p)) = keysE l from keysE_map_snd g l]
  exact h

theorem lookupE_map_snd (g : ℚ → ℚ) (l : List (String × ℚ)) (k : String) :
    lookupE (l.map fun p => (p.1, g p.2)) k = (lookupE l k).map g := by
  induction l with
  | nil => simp [lookupE]
  | cons p rest ih =>
    obtain ⟨a, b⟩ := p
    by_cases ha : a = k <;> simp [lookupE, ha, ih]

/-- The empty dict (a `Quantity` built with no keyword arguments). -/
def Dims.empty : Dims := ⟨[], List.nodup_nil⟩

/-- Dict union-with-operator used by multiplication and division. -/
def Dims.comb (f : ℚ → ℚ → ℚ) (a b : Dims) : Dims :=
  ⟨combE f a.entries b.entries, nodupKeysE_combE f _ _ a.nodup⟩

/-- `dict((u, self.unit[u]*other) for u in self.unit)` from `__pow__`. -/
def Dims.scale (d : Dims) (e : ℚ) : Dims :=
  ⟨d.entries.map fun p => (p.1, p.2 * e), nodupKeysE_map_snd _ _ d.nodup⟩

/-- `dict((u, -self.unit[u]) for u in self.unit)` from `__rdiv__`. -/
def Dims.neg (d : Dims) : Dims :=
  ⟨d.entries.map fun p => (p.1, -p.2), nodupKeysE_map_snd _ _ d.nodup⟩

/-- A Quantity: a numeric magnitude together with a dict of dimension exponents. -/
structure Quantity where
  value : ℚ
  unit : Dims

/-- A Python value in this domain: a bare number or a Quantity. -/
inductive Value where
  | num (x : ℚ)
  | quant (q : Quantity)

/-- `Quantity.__init__` on a plain numeric magnitude: the value and the
keyword dict are stored verbatim (no stripping, no simplification). -/
def Quantity.init (x : ℚ) (u : Dims) : Quantity := ⟨x, u⟩

/-- `Quantity.__init__` on a Quantity argument: copy magnitude and dict. -/
def Quantity.copy (q : Quantity) : Quantity := ⟨q.value, q.unit⟩

/-- `Quantity.simplify`: if every exponent is zero (empty dict included),
collapse to the bare magnitude; otherwise delete the zero-exponent
entries and return the Quantity. -/
def Quantity.simplify (q : Quantity) : Value :=
  if allZeroE q.unit.entries then .num q.value
  else .quant ⟨q.value, ⟨stripE q.unit.entries, nodupKeysE_stripE _ q.unit.nodup⟩⟩

/-- `Quantity.__eq__`. -/
def Quantity.qeq (q : Quantity) : Value → Except Err Bool
  | .num x =>
    if q.unit.entries = [] then .ok (decide (q.value = x))
    else .error .notImplemented
  | .quant o =>
    .ok (decide (q.value = o.value) && dimsEqE q.unit.entries o.unit.entries)

/-- `Quantity.__ne__`. -/
def Quantity.qne (q : Quantity) : Value → Except Err Bool
  | .num x =>
    if q.unit.entries = [] then .ok (decide (q.value ≠ x))
    else .error .notImplemented
  | .quant o =>
    .ok (decide (q.value ≠ o.value) || !dimsEqE q.unit.entries o.unit.entries)

/-- `Quantity.__le__`. -/
def Quantity.le (q : Quantity) : Value → Except Err Bool
  | .num x =>
    if q.unit.entries = [] then .ok (decide (q.value ≤ x))
    else .error .notImplemented
  | .quant o =>
    if dimsEqE q.unit.entries o.unit.entries then .ok (decide (q.value ≤ o.value))
    else .error .noOrdering

/-- `Quantity.__ge__`. -/
def Quantity.ge (q : Quantity) : Value → Except Err Bool
  | .num x =>
    if q.unit.entries = [] then .ok (decide (q.value ≥ x))
    else .error .notImplemented
  | .quant o =>
    if dimsEqE q.unit.entries o.unit.entries then .ok (decide (q.value ≥ o.value))
    else .error .noOrdering

/-- `Quantity.__lt__`. -/
def Quantity.lt (q : Quantity) : Value → Except Err Bool
  | .num x =>
    if q.unit.entries = [] then .ok (decide (q.value < x))
    else .error .notImplemented
  | .quant o =>
    if dimsEqE q.unit.entries o.unit.entries then .ok (decide (q.value < o.value))
    else .error .noOrdering

/-- `Quantity.__gt__`. -/
def Quantity.gt (q : Quantity) : Value → Except Err Bool
  | .num x =>
    if q.unit.entries = [] then .ok (decide (q.value > x))
    else .error .notImplemented
  | .quant o =>
    if dimsEqE q.unit.entries o.unit.entries then .ok (decide (q.value > o.value))
    else .error .noOrdering

/-- `int()` truncation toward zero on an exact rational. -/
def ratTrunc (x : ℚ) : ℤ := if 0 ≤ x then ⌊x⌋ else ⌈x⌉

/-- `Quantity.__int__`: legal only on an empty dimension dict. -/
def Quantity.toInt (q : Quantity) : Except Err ℤ :=
  if q.unit.entries = [] then .ok (ratTrunc q.value)
  else .error .cannotConvert

/-- `Quantity.__float__`: legal only on an empty dimension dict
(the float is modelled by the exact rational value). -/
def Quantity.toFloat (q : Quantity) : Except Err ℚ :=
  if q.unit.entries = [] then .ok q.value
  else .error .cannotConvert

/-- `Quantity.__complex__`: legal only on an empty dimension dict
(the complex number has zero imaginary part; modelled by its rational value). -/
def Quantity.toComplex (q : Quantity) : Except Err ℚ :=
  if q.unit.entries = [] then .ok q.value
  else .error .cannotConvert

/-- `Quantity.__pos__`. -/
def Quantity.pos (q : Quantity) : Quantity := ⟨q.value, q.unit⟩

/-- `Quantity.__neg__`. -/
def Quantity.neg (q : Quantity) : Quantity := ⟨-q.value, q.unit⟩

/-- `Quantity.__abs__`. -/
def Quantity.abs (q : Quantity) : Quantity := ⟨|q.value|, q.unit⟩

/-- `Quantity.__add__`: a falsy bare number gives back a copy; a nonzero
bare number is legal only on a dimensionless Quantity; two Quantities
require equal dicts. -/
def Quantity.add (q : Quantity) : Value → Except Err Quantity
  | .num x =>
    if x = 0 then .ok (Quantity.copy q)
    else if q.unit.entries = [] then .ok ⟨q.value + x, Dims.empty⟩
    else .error .cannotAdd
  | .quant o =>
    if dimsEqE q.unit.entries o.unit.entries then .ok ⟨q.value + o.value, q.unit⟩
    else .error .cannotAdd

/-- `number + Quantity` via `Quantity.__radd__`. -/
def raddNum (x : ℚ) (q : Quantity) : Except Err Quantity :=
  if x = 0 then .ok (Quantity.copy q)
  else if q.unit.entries = [] then q.add (.num x)
  else .error .cannotAdd

/-- `Quantity.__sub__` (its nonzero-number error branch reuses the
"Cannot add" message of the source). -/
def Quantity.sub (q : Quantity) : Value → Except Err Quantity
  | .num x =>
    if x = 0 then .ok (Quantity.copy q)
    else if q.unit.entries = [] then .ok ⟨q.value - x, Dims.empty⟩
    else .error .cannotAdd
  | .quant o =>
    if dimsEqE q.unit.entries o.unit.entries then .ok ⟨q.value - o.value, q.unit⟩
    else .error .cannotSubtract

/-- `Quantity.__mul__`: by a Quantity, exponents are added per label and
the result is simplified; by a bare number, the magnitude is scaled and
there is NO simplify call. -/
def Quantity.mul (q : Quantity) : Value → Value
  | .quant o => (Quantity.mk (q.value * o.value) (Dims.comb (· + ·) q.unit o.unit)).simplify
  | .num x => .quant ⟨q.value * x, q.unit⟩

/-- `number * Quantity` via `Quantity.__rmul__`: scaled and simplified. -/
def rmulNum (x : ℚ) (q : Quantity) : Value :=
  (Quantity.mk (q.value * x) q.unit).simplify

/-- `Quantity.__div__`: by a Quantity, exponents are subtracted per label
and the result is simplified; by a bare number, the magnitude is divided
and there is no simplify call. -/
def Quantity.div (q : Quantity) : Value → Value
  | .quant o => (Quantity.mk (q.value / o.value) (Dims.comb (· - ·) q.unit o.unit)).simplify
  | .num x => .quant ⟨q.value / x, q.unit⟩

/-- `number / Quantity` via `Quantity.__rdiv__`: exponents negated, simplified. -/
def rdivNum (x : ℚ) (q : Quantity) : Value :=
  (Quantity.mk (x / q.value) (Dims.neg q.unit)).simplify

/-- `Quantity.__floordiv__`. -/
def Quantity.floordiv (q : Quantity) : Value → Value
  | .quant o =>
    (Quantity.mk ((⌊q.value / o.value⌋ : ℤ) : ℚ) (Dims.comb (· - ·) q.unit o.unit)).simplify
  | .num x => .quant ⟨((⌊q.value / x⌋ : ℤ) : ℚ), q.unit⟩

/-- `Quantity.__mod__`: raises unconditionally. -/
def Quantity.mod (_ : Quantity) (_ : Value) : Except Err Value :=
  .error .unsupportedXXX

/-- `Quantity.__divmod__`: raises unconditionally. -/
def Quantity.divmod (_ : Quantity) (_ : Value) : Except Err (Value × Value) :=
  .error .unsupportedXXX

/-- `Quantity.__pow__`: each exponent multiplied by `e`, the magnitude
raised by the host numeric type's own power operation `hostPow`; no
simplify pass. -/
def Quantity.qpow (q : Quantity) (hostPow : ℚ → ℚ → ℚ) (e : ℚ) : Quantity :=
  ⟨hostPow q.value e, Dims.scale q.unit e⟩

/-- The dict of `Quantity(_, m=1)`. -/
def dimsM : Dims := ⟨[("m", 1)], by decide⟩

/-- The dict of `Quantity(_, s=1)`. -/
def dimsS : Dims := ⟨[("s", 1)], by decide⟩

/-- The dict of `Quantity(_, m=0)`: a zero exponent stored explicitly. -/
def dimsM0 : Dims := ⟨[("m", 0)], by decide⟩

/-- The dict of `Quantity(_, m=2)`. -/
def dimsM2 : Dims := ⟨[("m", 2)], by decide⟩

/-! ### Explicit-heap version of the arithmetic operators

Each Python `Quantity` object is a mutable cell `(value, unit-dict)` in a
store, referenced by its index.  Constructing a `Quantity` allocates a
fresh cell at the end of the store; `simplify` either returns a bare
number (leaving the store untouched) or deletes the zero-exponent entries
of its receiver cell in place.  This captures the object identity and the
in-place mutation of the source, which the pure functions above abstract
away. -/

/-- A heap cell: the mutable state of one Python `Quantity` object. -/
abbrev Cell := ℚ × List (String × ℚ)

/-- Read the cell at index `r` (out-of-range reads a dummy cell; the
Python program never holds a dangling reference). -/
def readCell (σ : List Cell) (r : Nat) : Cell := σ.getD r (0, [])

/-- Overwrite the cell at index `r`. -/
def writeCell (σ : List Cell) (r : Nat) (c : Cell) : List Cell := σ.set r c

/-- A heap-level Python value: a bare number or a reference to a Quantity cell. -/
inductive HVal where
  | num (x : ℚ)
  | ref (r : Nat)

/-- In-place `Quantity.simplify` on the heap: either return the bare
magnitude with the store untouched, or delete the zero entries of cell
`r` in place and return the same reference. -/
def simplifyAt (σ : List Cell) (r : Nat) : List Cell × HVal :=
  let c := readCell σ r
  if allZeroE c.2 then (σ, .num c.1)
  else (writeCell σ r (c.1, stripE c.2), .ref r)

/-- The arithmetic operators of `units.py`, as heap operations.  The
`Num` forms are the bare-number-operand branches (`x` the number);
`rmulNumOp` is `__rmul__`, the one bare-number form that calls simplify. -/
inductive AOp where
  | posOp | negOp | absOp | addOp | subOp | mulOp | divOp | floordivOp
  | powOp (e : ℚ)
  | addNumOp (x : ℚ) | subNumOp (x : ℚ) | mulNumOp (x : ℚ) | rmulNumOp (x : ℚ)
  | divNumOp (x : ℚ) | rdivNumOp (x : ℚ) | floordivNumOp (x : ℚ)

/-- Run one arithmetic operation of `units.py` on the heap: read the
operand cells, allocate the result `Quantity` as a fresh cell, and for
the operations that call `simplify`, run the in-place simplify on the
fresh cell.  `r2` is ignored by the unary and bare-number forms. -/
def runAOp (hostPow : ℚ → ℚ → ℚ) (op : AOp) (σ : List Cell) (r1 r2 : Nat) :
    Except Err (List Cell × HVal) :=
  let c1 := readCell σ r1
  let c2 := readCell σ r2
  match op with
  | .posOp => .ok (σ ++ [(c1.1, c1.2)], .ref σ.length)
  | .negOp => .ok (σ ++ [(-c1.1, c1.2)], .ref σ.length)
  | .absOp => .ok (σ ++ [(|c1.1|, c1.2)], .ref σ.length)
  | .addOp =>
    if dimsEqE c1.2 c2.2 then .ok (σ ++ [(c1.1 + c2.1, c1.2)], .ref σ.length)
    else .error .cannotAdd
  | .subOp =>
    if dimsEqE c1.2 c2.2 then .ok (σ ++ [(c1.1 - c2.1, c1.2)], .ref σ.length)
    else .error .cannotSubtract
  | .mulOp => .ok (simplifyAt (σ ++ [(c1.1 * c2.1, combE (· + ·) c1.2 c2.2)]) σ.length)
  | .divOp => .ok (simplifyAt (σ ++ [(c1.1 / c2.1, combE (· - ·) c1.2 c2.2)]) σ.length)
  | .floordivOp =>
    .ok (simplifyAt (σ ++ [(((⌊c1.1 / c2.1⌋ : ℤ) : ℚ), combE (· - ·) c1.2 c2.2)]) σ.length)
  | .powOp e =>
    .ok (σ ++ [(hostPow c1.1 e, c1.2.map fun p => (p.1, p.2 * e))], .ref σ.length)
  | .addNumOp x =>
    if x = 0 then .ok (σ ++ [(c1.1, c1.2)], .ref σ.length)
    else if c1.2 = [] then .ok (σ ++ [(c1.1 + x, [])], .ref σ.length)
    else .error .cannotAdd
  | .subNumOp x =>
    if x = 0 then .ok (σ ++ [(c1.1, c1.2)], .ref σ.length)
    else if c1.2 = [] then .ok (σ ++ [(c1.1 - x, [])], .ref σ.length)
    else .error .cannotAdd
  | .mulNumOp x => .ok (σ ++ [(c1.1 * x, c1.2)], .ref σ.length)
  | .rmulNumOp x => .ok (simplifyAt (σ ++ [(c1.1 * x, c1.2)]) σ.length)
  | .divNumOp x => .ok (σ ++ [(c1.1 / x, c1.2)], .ref σ.length)
  | .rdivNumOp x =>
    .ok (simplifyAt (σ ++ [(x / c1.1, c1.2.map fun p => (p.1, -p.2))]) σ.length)
  | .floordivNumOp x => .ok (σ ++ [(((⌊c1.1 / x⌋ : ℤ) : ℚ), c1.2)], .ref σ.length)

theorem readCell_append_lt (σ : List Cell) (c : Cell) (r : Nat) (h : r < σ.length) :
    readCell (σ ++ [c]) r = readCell σ r := by
  unfold readCell
  induction σ generalizing r with
  | nil => simp at h
  | cons x rest ih =>
    cases r with
    | zero => simp
    | succ n =>
      simp only [List.cons_append, List.getD_cons_succ]
      exact ih n (by simpa using h)

theorem readCell_append_self (σ : List Cell) (c : Cell) :
    readCell (σ ++ [c]) σ.length = c := by
  unfold readCell
  induction σ with
  | nil => simp
  | cons x rest ih =>
    simp only [List.cons_append, List.length_cons, List.getD_cons_succ]
    exact ih

theorem readCell_writeCell_ne (σ : List Cell) (n : Nat) (c : Cell) (r : Nat)
    (h : r ≠ n) : readCell (writeCell σ n c) r = readCell σ r := by
  unfold readCell writeCell
  induction σ generalizing n r with
  | nil => simp
  | cons x rest ih =>
    cases n with
    | zero =>
      cases r with
      | zero => exact absurd rfl h
      | succ m => simp
    | succ n0 =>
      cases r with
      | zero => simp
      | succ m =>
        simp only [List.set_cons_succ, List.getD_cons_succ]
        exact ih n0 m (by omega)

theorem simplifyAt_frame (σ : List Cell) (c : Cell) (r : Nat) (h : r < σ.length) :
    readCell (simplifyAt (σ ++ [c]) σ.length).1 r = readCell σ r := by
  simp only [simplifyAt]
  by_cases hz : allZeroE (readCell (σ ++ [c]) σ.length).2 = true
  · rw [if_pos hz]
    exact readCell_append_lt σ c r h
  · rw [if_neg hz]
    have h2 : readCell (writeCell (σ ++ [c]) σ.length
        ((readCell (σ ++ [c]) σ.length).1, stripE (readCell (σ ++ [c]) σ.length).2)) r
        = readCell (σ ++ [c]) r :=
      readCell_writeCell_ne _ _ _ _ (Nat.ne_of_lt h)
    exact h2.trans (readCell_append_lt σ c r h)

theorem simplifyAt_ref (σ : List Cell) (c : Cell) (t : Nat)
    (h : (simplifyAt (σ ++ [c]) σ.length).2 = .ref t) : t = σ.length := by
  simp only [simplifyAt] at h
  by_cases hz : allZeroE (readCell (σ ++ [c]) σ.length).2 = true
  · rw [if_pos hz] at h
    exact HVal.noConfusion
      (show HVal.num (readCell (σ ++ [c]) σ.length).1 = HVal.ref t from h)
  · rw [if_neg hz] at h
    have h2 : HVal.ref σ.length = HVal.ref t := h
    injection h2 with h3
    exact h3.symm

theorem frame_alloc (σ : List Cell) (c : Cell) (σ2 : List Cell) (res : HVal)
    (h : (σ ++ [c], HVal.ref σ.length) = (σ2, res)) :
    (∀ r, r < σ.length → readCell σ2 r = readCell σ r) ∧
    (∀ t, res = .ref t → t = σ.length) := by
  rw [Prod.ext_iff] at h
  obtain ⟨h1, h2⟩ := h
  subst h1
  subst h2
  refine ⟨fun r hr => readCell_append_lt σ c r hr, fun t ht => ?_⟩
  injection ht with ht2
  exact ht2.symm

theorem frame_simplify (σ : List Cell) (c : Cell) (σ2 : List Cell) (res : HVal)
    (h : simplifyAt (σ ++ [c]) σ.length = (σ2, res)) :
    (∀ r, r < σ.length → readCell σ2 r = readCell σ r) ∧
    (∀ t, res = .ref t → t = σ.length) := by
  have h1 : σ2 = (simplifyAt (σ ++ [c]) σ.length).1 := by rw [h]
  have h2 : res = (simplifyAt (σ ++ [c]) σ.length).2 := by rw [h]
  subst h1
  subst h2
  exact ⟨fun r hr => simplifyAt_frame σ c r hr, fun t ht => simplifyAt_ref σ c t ht⟩

/-! ### The claims -/

/-- C1: dividing a Quantity by a Quantity divides the magnitudes,
subtracts the dimension exponents per label (absent labels count as 0),
and passes the result through simplify; when the two dimension dicts are
equal, the result collapses to a bare number (not a Quantity). -/
theorem claim1_div (q1 q2 : Quantity) :
    q1.div (.quant q2)
      = (Quantity.mk (q1.value / q2.value) (Dims.comb (· - ·) q1.unit q2.unit)).simplify ∧
    (∀ k : String,
      (lookupE (Dims.comb (· - ·) q1.unit q2.unit).entries k).getD 0
        = (lookupE q1.unit.entries k).getD 0 - (lookupE q2.unit.entries k).getD 0) ∧
    (dimsEqE q1.unit.entries q2.unit.entries = true →
      q1.div (.quant q2) = .num (q1.value / q2.value)) := by
  refine ⟨rfl, ?_, ?_⟩
  · intro k
    have hc := lookupE_combE (· - ·) q1.unit.entries q2.unit.entries q2.unit.nodup k
    cases hb : lookupE q2.unit.entries k with
    | some w =>
      rw [hb] at hc
      simp [Dims.comb, hc]
    | none =>
      rw [hb] at hc
      simp [Dims.comb, hc]
  · intro hdeq
    have hz : allZeroE (combE (· - ·) q1.unit.entries q2.unit.entries) = true := by
      rw [allZeroE_iff_lookups _ (nodupKeysE_combE _ _ _ q1.unit.nodup)]
      intro k v hv
      have hc := lookupE_combE (· - ·) q1.unit.entries q2.unit.entries q2.unit.nodup k
      have heq := dimsEqE_lookup _ _ hdeq k
      cases hb : lookupE q2.unit.entries k with
      | some w =>
        rw [hb] at hc
        have h3 : v = (lookupE q1.unit.entries k).getD 0 - w :=
          Option.some.inj (hv.symm.trans hc)
        rw [heq, hb] at h3
        simpa using h3
      | none =>
        rw [hb] at hc
        rw [heq, hb] at hc
        rw [hc] at hv
        exact Option.noConfusion hv
    simp [Quantity.div, Quantity.simplify, Dims.comb, hz]

/-- C1 witness: Quantity(10, m=1) / Quantity(2, m=1) is the bare number 5. -/
theorem claim1_div_witness :
    (Quantity.mk 10 dimsM).div (.quant (Quantity.mk 2 dimsM)) = .num 5 := by
  have h := (claim1_div (Quantity.mk 10 dimsM) (Quantity.mk 2 dimsM)).2.2 (by decide)
  have h5 : (10 : ℚ) / 2 = 5 := by norm_num
  rw [h5] at h
  exact h

/-- C2 counterexample: for the dimensionless Quantity(5) and the bare
number 2, `q * 2` is a Quantity, not the bare number the claim promises
(no simplify call in `__mul__`'s bare-number branch), while `2 * q`
(`__rmul__`) does simplify and produces the bare number. -/
theorem claim2_counterexample :
    (Quantity.mk 5 Dims.empty).mul (.num 2) ≠ .num ((5 : ℚ) * 2) ∧
    rmulNum 2 (Quantity.mk 5 Dims.empty) = .num ((5 : ℚ) * 2) := by
  constructor
  · intro h
    exact Value.noConfusion
      (show Value.quant (Quantity.mk ((5 : ℚ) * 2) Dims.empty) = Value.num ((5 : ℚ) * 2) from h)
  · rfl

/-- C2 (amended): `q * n` builds Quantity(q.value * n, q.unit) with NO
simplify call, while `n * q` is passed through simplify; hence only the
reflected order collapses an all-zero dimension dict to a bare number. -/
theorem claim2_mul_number (q : Quantity) (x : ℚ) :
    q.mul (.num x) = .quant ⟨q.value * x, q.unit⟩ ∧
    rmulNum x q = (Quantity.mk (q.value * x) q.unit).simplify ∧
    (allZeroE q.unit.entries = true → rmulNum x q = .num (q.value * x)) := by
  refine ⟨rfl, rfl, ?_⟩
  intro hz
  simp [rmulNum, Quantity.simplify, hz]

/-- C2 witness: in the reflected order, 2 * Quantity(7) is the bare number 14. -/
theorem claim2_mul_number_witness :
    rmulNum 2 (Quantity.mk 7 Dims.empty) = .num ((7 : ℚ) * 2) :=
  (claim2_mul_number (Quantity.mk 7 Dims.empty) 2).2.2 (by decide)

/-- C3: adding two Quantities succeeds exactly when the dimension dicts
are equal, giving the summed magnitude with that dimension; otherwise it
raises the dimension-mismatch TypeError ("Cannot add ..."). -/
theorem claim3_add (q1 q2 : Quantity) :
    (dimsEqE q1.unit.entries q2.unit.entries = true →
      q1.add (.quant q2) = .ok (Quantity.mk (q1.value + q2.value) q1.unit)) ∧
    (dimsEqE q1.unit.entries q2.unit.entries = false →
      q1.add (.quant q2) = .error .cannotAdd) := by
  constructor
  · intro h
    simp [Quantity.add, h]
  · intro h
    simp [Quantity.add, h]

/-- C3 witness: Quantity(3, m=1) + Quantity(4, m=1) succeeds with sum 7,
and Quantity(1, m=1) + Quantity(1, s=1) raises. -/
theorem claim3_add_witness :
    (Quantity.mk 3 dimsM).add (.quant (Quantity.mk 4 dimsM))
      = .ok (Quantity.mk ((3 : ℚ) + 4) dimsM) ∧
    (Quantity.mk 1 dimsM).add (.quant (Quantity.mk 1 dimsS)) = .error .cannotAdd :=
  ⟨(claim3_add _ _).1 (by decide), (claim3_add _ _).2 (by decide)⟩

/-- C4: adding the bare number zero in either operand order returns a
copy of the Quantity, equal to it (same magnitude, same dimension dict),
for every dimension. -/
theorem claim4_zero_identity (q : Quantity) :
    q.add (.num 0) = .ok q ∧ raddNum 0 q = .ok q ∧ q.qeq (.quant q) = .ok true := by
  refine ⟨rfl, rfl, ?_⟩
  simp [Quantity.qeq, dimsEqE_refl _ q.unit.nodup]

/-- C5 counterexample: Quantity(1, m=1) < 2 (a bare number) raises
NotImplementedError, which is a different error than the
dimension-mismatch TypeError that ordering two Quantities of different
dimension raises; the claim that both fail "with DimensionMismatch" is
false. -/
theorem claim5_counterexample :
    (Quantity.mk 1 dimsM).lt (.num 2) = .error Err.notImplemented ∧
    Err.notImplemented ≠ Err.noOrdering ∧
    (Quantity.mk 1 dimsM).lt (.quant (Quantity.mk 1 dimsS)) = .error Err.noOrdering :=
  ⟨rfl, by decide, rfl⟩

/-- C5 (amended): ordering two Quantities compares the magnitudes when
the dimension dicts are equal and raises the dimension-mismatch
TypeError otherwise; ordering against a bare number compares magnitudes
when the dict is empty and otherwise raises NotImplementedError (not the
dimension-mismatch error). -/
theorem claim5_ordering (q1 q2 : Quantity) (x : ℚ) :
    (dimsEqE q1.unit.entries q2.unit.entries = true →
      q1.le (.quant q2) = .ok (decide (q1.value ≤ q2.value)) ∧
      q1.ge (.quant q2) = .ok (decide (q1.value ≥ q2.value)) ∧
      q1.lt (.quant q2) = .ok (decide (q1.value < q2.value)) ∧
      q1.gt (.quant q2) = .ok (decide (q1.value > q2.value))) ∧
    (dimsEqE q1.unit.entries q2.unit.entries = false →
      q1.le (.quant q2) = .error .noOrdering ∧
      q1.ge (.quant q2) = .error .noOrdering ∧
      q1.lt (.quant q2) = .error .noOrdering ∧
      q1.gt (.quant q2) = .error .noOrdering) ∧
    (q1.unit.entries = [] →
      q1.le (.num x) = .ok (decide (q1.value ≤ x)) ∧
      q1.ge (.num x) = .ok (decide (q1.value ≥ x)) ∧
      q1.lt (.num x) = .ok (decide (q1.value < x)) ∧
      q1.gt (.num x) = .ok (decide (q1.value > x))) ∧
    (q1.unit.entries ≠ [] →
      q1.le (.num x) = .error .notImplemented ∧
      q1.ge (.num x) = .error .notImplemented ∧
      q1.lt (.num x) = .error .notImplemented ∧
      q1.gt (.num x) = .error .notImplemented) := by
  refine ⟨fun h => ?_, fun h => ?_, fun h => ?_, fun h => ?_⟩ <;>
    simp [Quantity.le, Quantity.ge, Quantity.lt, Quantity.gt, h]

/-- C5 witness: Quantity(1, m=1) < Quantity(2, m=1) is True, and
Quantity(1, m=1) < 2 raises NotImplementedError. -/
theorem claim5_ordering_witness :
    (Quantity.mk 1 dimsM).lt (.quant (Quantity.mk 2 dimsM)) = .ok (decide ((1 : ℚ) < 2)) ∧
    (Quantity.mk 1 dimsM).lt (.num 2) = .error .notImplemented :=
  ⟨((claim5_ordering (Quantity.mk 1 dimsM) (Quantity.mk 2 dimsM) 2).1 (by decide)).2.2.1,
   ((claim5_ordering (Quantity.mk 1 dimsM) (Quantity.mk 2 dimsM) 2).2.2.2 (by decide)).2.2.1⟩

/-- C6: exponentiation keeps the dimension labels, multiplies every
exponent by e, raises the magnitude with the host power operation, and
applies no simplify pass; in particular q ** 0 on a dimensioned q keeps
its (now all-zero) entries instead of stripping them. -/
theorem claim6_pow (hp : ℚ → ℚ → ℚ) (q : Quantity) (e : ℚ) :
    (q.qpow hp e).value = hp q.value e ∧
    (q.qpow hp e).unit.entries = q.unit.entries.map (fun p => (p.1, p.2 * e)) ∧
    keysE (q.qpow hp e).unit.entries = keysE q.unit.entries ∧
    (∀ k v, lookupE q.unit.entries k = some v →
      lookupE (q.qpow hp e).unit.entries k = some (v * e)) ∧
    (e = 0 → q.unit.entries ≠ [] →
      (q.qpow hp e).unit.entries ≠ [] ∧
      allZeroE (q.qpow hp e).unit.entries = true ∧
      stripE (q.qpow hp e).unit.entries = []) := by
  refine ⟨rfl, rfl, keysE_map_snd _ _, ?_, ?_⟩
  · intro k v hv
    have h2 := lookupE_map_snd (fun w => w * e) q.unit.entries k
    rw [hv] at h2
    simpa using h2
  · rintro rfl hne
    refine ⟨?_, ?_, ?_⟩
    · simpa [Quantity.qpow, Dims.scale] using hne
    · simp [Quantity.qpow, Dims.scale, allZeroE, List.all_eq_true]
    · simp [Quantity.qpow, Dims.scale, stripE, List.filter_eq_nil_iff]
      intro a b x y hmem hx h0
      exact h0.symm

/-- C6 witness: Quantity(4, m=2) ** 0 keeps the entry m=0. -/
theorem claim6_pow_witness :
    ((Quantity.mk 4 dimsM2).qpow (fun v _ => v) 0).unit.entries ≠ [] ∧
    allZeroE ((Quantity.mk 4 dimsM2).qpow (fun v _ => v) 0).unit.entries = true := by
  have h := (claim6_pow (fun v _ => v) (Quantity.mk 4 dimsM2) 0).2.2.2.2 rfl (by decide)
  exact ⟨h.1, h.2.1⟩

/-- C7: modulo and divmod raise unconditionally, for every Quantity and
every operand. -/
theorem claim7_mod_divmod (q : Quantity) (v : Value) :
    q.mod v = .error .unsupportedXXX ∧ q.divmod v = .error .unsupportedXXX :=
  ⟨rfl, rfl⟩

/-- The dict the claim's words describe for construction: every
zero-exponent entry removed. -/
def specStripZeros (u : Dims) : Dims :=
  ⟨stripE u.entries, nodupKeysE_stripE _ u.nodup⟩

/-- C8 counterexample: Quantity(5, m=0) stores the zero-exponent entry
verbatim; its dict is not dict-equal to the zero-stripped dict the claim
describes. -/
theorem claim8_counterexample :
    (Quantity.init 5 dimsM0).unit.entries = [("m", 0)] ∧
    (specStripZeros dimsM0).entries = [] ∧
    dimsEqE (Quantity.init 5 dimsM0).unit.entries (specStripZeros dimsM0).entries = false :=
  ⟨rfl, rfl, rfl⟩

/-- C8 (amended): immediately after construction the magnitude and the
dimension dict are exactly the arguments passed; zero-exponent entries
are kept (construction does not simplify). -/
theorem claim8_init (x : ℚ) (u : Dims) :
    (Quantity.init x u).value = x ∧ (Quantity.init x u).unit = u :=
  ⟨rfl, rfl⟩

/-- C10: a Quantity whose dimension dict is nonempty but all-zero is
treated as dimensioned: equality and inequality against a bare number
raise NotImplementedError, and conversion to int, float or complex
raises the conversion TypeError. -/
theorem claim10_zero_exponents (q : Quantity) (x : ℚ)
    (hne : q.unit.entries ≠ []) (_hz : allZeroE q.unit.entries = true) :
    q.qeq (.num x) = .error .notImplemented ∧
    q.qne (.num x) = .error .notImplemented ∧
    q.toInt = .error .cannotConvert ∧
    q.toFloat = .error .cannotConvert ∧
    q.toComplex = .error .cannotConvert := by
  refine ⟨?_, ?_, ?_, ?_, ?_⟩ <;>
    simp [Quantity.qeq, Quantity.qne, Quantity.toInt, Quantity.toFloat,
      Quantity.toComplex, hne]

/-- C10 witness: Quantity(5, m=0), whose only exponent is zero, raises on
== 5 and on float conversion. -/
theorem claim10_zero_exponents_witness :
    (Quantity.mk 5 dimsM0).qeq (.num 5) = .error .notImplemented ∧
    (Quantity.mk 5 dimsM0).toFloat = .error .cannotConvert := by
  have h := claim10_zero_exponents (Quantity.mk 5 dimsM0) 5 (by decide) (by decide)
  exact ⟨h.1, h.2.2.2.1⟩

/-- C9: every arithmetic operation of `units.py`, run on the heap,
allocates its result as a fresh cell and leaves every existing cell — in
particular both operand Quantities — unchanged; the in-place simplify
touches only the freshly allocated cell, and a Quantity result is always
the fresh reference. -/
theorem claim9_frame (hp : ℚ → ℚ → ℚ) (op : AOp) (σ : List Cell) (r1 r2 : Nat)
    (σ2 : List Cell) (res : HVal) (h : runAOp hp op σ r1 r2 = .ok (σ2, res)) :
    (∀ r, r < σ.length → readCell σ2 r = readCell σ r) ∧
    (∀ t, res = .ref t → t = σ.length) := by
  cases op with
  | posOp =>
    simp only [runAOp] at h
    injection h with h2
    exact frame_alloc _ _ _ _ h2
  | negOp =>
    simp only [runAOp] at h
    injection h with h2
    exact frame_alloc _ _ _ _ h2
  | absOp =>
    simp only [runAOp] at h
    injection h with h2
    exact frame_alloc _ _ _ _ h2
  | addOp =>
    simp only [runAOp] at h
    split at h
    · injection h with h2
      exact frame_alloc _ _ _ _ h2
    · exact Except.noConfusion h
  | subOp =>
    simp only [runAOp] at h
    split at h
    · injection h with h2
      exact frame_alloc _ _ _ _ h2
    · exact Except.noConfusion h
  | mulOp =>
    simp only [runAOp] at h
    injection h with h2
    exact frame_simplify _ _ _ _ h2
  | divOp =>
    simp only [runAOp] at h
    injection h with h2
    exact frame_simplify _ _ _ _ h2
  | floordivOp =>
    simp only [runAOp] at h
    injection h with h2
    exact frame_simplify _ _ _ _ h2
  | powOp e =>
    simp only [runAOp] at h
    injection h with h2
    exact frame_alloc _ _ _ _ h2
  | addNumOp x =>
    simp only [runAOp] at h
    split at h
    · injection h with h2
      exact frame_alloc _ _ _ _ h2
    · split at h
      · injection h with h2
        exact frame_alloc _ _ _ _ h2
      · exact Except.noConfusion h
  | subNumOp x =>
    simp only [runAOp] at h
    split at h
    · injection h with h2
      exact frame_alloc _ _ _ _ h2
    · split at h
      · injection h with h2
        exact frame_alloc _ _ _ _ h2
      · exact Except.noConfusion h
  | mulNumOp x =>
    simp only [runAOp] at h
    injection h with h2
    exact frame_alloc _ _ _ _ h2
  | rmulNumOp x =>
    simp only [runAOp] at h
    injection h with h2
    exact frame_simplify _ _ _ _ h2
  | divNumOp x =>
    simp only [runAOp] at h
    injection h with h2
    exact frame_alloc _ _ _ _ h2
  | rdivNumOp x =>
    simp only [runAOp] at h
    injection h with h2
    exact frame_simplify _ _ _ _ h2
  | floordivNumOp x =>
    simp only [runAOp] at h
    injection h with h2
    exact frame_alloc _ _ _ _ h2

/-- C9 witness: Quantity(2, m=1) * Quantity(3, m=-1) allocates a fresh
cell, collapses it via simplify to a bare number, and the first operand
cell is unchanged. -/
theorem claim9_frame_witness :
    readCell ([((2 : ℚ), [("m", 1)]), (3, [("m", -1)])]
      ++ [((2 : ℚ) * 3, combE (· + ·) [("m", 1)] [("m", -1)])]) 0
      = readCell [((2 : ℚ), [("m", 1)]), (3, [("m", -1)])] 0 := by
  have hz : allZeroE (combE (· + ·) [("m", 1)] [("m", -1)]) = true := by
    norm_num [allZeroE, combE, setE, lookupE]
  have heq : runAOp (fun v _ => v) .mulOp [((2 : ℚ), [("m", 1)]), (3, [("m", -1)])] 0 1
      = .ok ([((2 : ℚ), [("m", 1)]), (3, [("m", -1)])]
        ++ [((2 : ℚ) * 3, combE (· + ·) [("m", 1)] [("m", -1)])], .num ((2 : ℚ) * 3)) := by
    simp only [runAOp, simplifyAt, readCell]
    norm_num [hz]
  exact (claim9_frame (fun v _ => v) .mulOp [((2 : ℚ), [("m", 1)]), (3, [("m", -1)])] 0 1
    _ _ heq).1 0 (by decide)

end Units
